import Mathlib

/-!
Verification of the SimpleHTTPServer (spidey) request lifecycle.

The C sources under src/ are shallowly embedded: C strings become
`List Char`, the client stream becomes the list of lines `fgets` would
return, the singly linked header list becomes a `List Header` built by
the exact three-way insertion the C code performs, and the libc / OS
collaborators (accept, getnameinfo, fork, lstat, scandir, setenv) become
explicit parameters or small models noted in their doc comments.
-/

namespace Spidey

/-- Convert a string literal to the `List Char` the embedding works over. -/
def s2l (s : String) : List Char := s.data

/-- Modelled from the spec: the `WHITESPACE` delimiter set of `spidey.h`
(not under src/) used by `strtok` when splitting the request line;
the spec says the request line is tokenized on whitespace. -/
def isTokDelim (c : Char) : Bool := c = ' ' || c = '\t' || c = '\n'

/-- Modelled from the spec: C `isspace` from ctype.h, used by
`skip_whitespace` / `skip_nonwhitespace` (declared in the missing
`spidey.h`) and by the trailing-trim loop of `parse_request_headers`. -/
def isSpaceC (c : Char) : Bool :=
  c = ' ' || c = '\t' || c = '\n' || c = '\x0b' || c = '\x0c' || c = '\r'

/-- HTTP status codes of `spidey.h`; `ok` is the zero enum value that the
C code tests with `result != 0`. -/
inductive HTTPStatus
  | ok
  | badRequest
  | notFound
  | internalServerError
deriving DecidableEq

/-- The numeric enum value of a status (`HTTP_STATUS_OK = 0`). -/
def HTTPStatus.toCode : HTTPStatus → Nat
  | .ok => 0
  | .badRequest => 1
  | .notFound => 2
  | .internalServerError => 3

/-- One parsed header: a name/value pair of `struct header`. -/
structure Header where
  name : List Char
  value : List Char
deriving DecidableEq

/-- The method/uri/query triple filled in by `parse_request_method`. -/
structure RequestLine where
  method : List Char
  uri : List Char
  query : Option (List Char)
deriving DecidableEq

/-- One `strtok(.., WHITESPACE)` step: skip leading delimiters, then
return the maximal non-delimiter run and the remainder; `none` models
`strtok` returning `NULL` when no token is left. -/
def strtok1 (s : List Char) : Option (List Char × List Char) :=
  let s1 := s.dropWhile isTokDelim
  match s1 with
  | [] => none
  | _ :: _ =>
      some (s1.takeWhile (fun c => !isTokDelim c), s1.dropWhile (fun c => !isTokDelim c))

/-- `parse_request_method` of src/request.c on one input line (the line
`fgets` returned; a missing line is handled by the caller).  Tokenizes
method and URI, then splits the URI at the first question mark found by
`strchr` exactly as the C pointer arithmetic `uri + strlen(uri) - strlen(temp) - 1`
does: the character written to is the first `?`. -/
def parse_request_method (buffer : List Char) : Option RequestLine :=
  match strtok1 buffer with
  | none => none
  | some (method, rest1) =>
    match strtok1 rest1 with
    | none => none
    | some (uri, _) =>
      match uri.dropWhile (fun c => !decide (c = '?')) with
      | [] => some ⟨method, uri, none⟩
      | _ :: afterq =>
          some ⟨method, uri.take (uri.length - afterq.length - 1), some afterq⟩

/-- The trailing-whitespace trim of `parse_request_headers`: `back` walks
from the end while `value < back && isspace(*back)`, so at least the first
character is always kept. -/
def trimBack : List Char → List Char
  | [] => []
  | c :: rest => c :: (rest.reverse.dropWhile isSpaceC).reverse

/-- One header line of `parse_request_headers` (src/request.c): `strchr`
for the first `:` (its absence is the hard failure), `skip_nonwhitespace`
then `skip_whitespace` to find the value, the in-place trailing trim, and
the name truncation `*(name + strlen(name) - strlen(value) - 2) = 0`
performed on the trimmed buffer. -/
def parse_header_line (buffer : List Char) : Option Header :=
  let afterColon := buffer.dropWhile (fun c => !decide (c = ':'))
  match afterColon with
  | [] => none
  | _ :: _ =>
    let afterNonWs := afterColon.dropWhile (fun c => !isSpaceC c)
    let value0 := afterNonWs.dropWhile isSpaceC
    let value := trimBack value0
    let valueOffset := buffer.length - value0.length
    some ⟨buffer.take (valueOffset - 2), value⟩

/-- The list insertion of `parse_request_headers`: the C code keeps
`curr` pointing at the second node forever, so with two or more nodes the
new header overwrites `curr->next` instead of being appended. -/
def insertHeader : List Header → Header → List Header
  | [], t => [t]
  | [h1], t => [h1, t]
  | h1 :: h2 :: _, t => [h1, h2, t]

/-- The header loop of `parse_request_headers` over the remaining stream
lines: stop at a bare `\n` or `\r\n` (or at end of stream, which the C
`while (fgets(...))` also treats as success), fail on a line without `:`,
otherwise insert the parsed header. -/
def parse_request_headers : List (List Char) → List Header → Option (List Header)
  | [], acc => some acc
  | buffer :: rest, acc =>
    if buffer = s2l "\n" ∨ buffer = s2l "\r\n" then some acc
    else
      match parse_header_line buffer with
      | none => none
      | some t => parse_request_headers rest (insertHeader acc t)

/-- Result of `parse_request` (src/request.c): `-1` when the request line
fails, `-2` when the header phase fails. -/
inductive ParseOutcome
  | ok (line : RequestLine) (headers : List Header)
  | methodFail
  | headerFail
deriving DecidableEq

/-- `parse_request` of src/request.c over the stream's lines: the first
line feeds `parse_request_method` (an empty stream is the `fgets` failure
of that phase), the rest feed `parse_request_headers`. -/
def parse_request : List (List Char) → ParseOutcome
  | [] => .methodFail
  | l :: rest =>
    match parse_request_method l with
    | none => .methodFail
    | some rl =>
      match parse_request_headers rest [] with
      | none => .headerFail
      | some hs => .ok rl hs

/-! ## Connection acceptance (src/request.c, `accept_request`) -/

/-- The fields of the returned request that `accept_request` leaves for
its caller: peer host and port.  The struct is `calloc`ed, so both start
as empty strings, and `getnameinfo` is called with zero-length buffers,
so they are never written. -/
structure Request0 where
  host : List Char
  port : List Char
deriving DecidableEq

/-- `accept_request` of src/request.c with the outcomes of its three
fallible collaborators (`accept`, `getnameinfo`, `fdopen`) as explicit
booleans: each failure takes the `goto fail` path, which frees the
request struct and returns `NULL` (only the `fdopen` branch also closes
the accepted client descriptor; the embedding models just the returned
value). -/
def accept_request (acceptOk nameinfoOk fdopenOk : Bool) : Option Request0 :=
  if !acceptOk then none
  else if !nameinfoOk then none
  else if !fdopenOk then none
  else some ⟨[], []⟩

/-! ## Error responder (src/handler.c, `handle_error`) -/

/-- Modelled from the spec: `http_status_string` lives outside src/;
the outbound wire format in the spec is `HTTP/1.0 <code> <reason>`. -/
def http_status_string : HTTPStatus → List Char
  | .ok => s2l "200 OK"
  | .badRequest => s2l "400 Bad Request"
  | .notFound => s2l "404 Not Found"
  | .internalServerError => s2l "500 Internal Server Error"

/-- `handle_error` of src/handler.c: writes the status line, a
`Content-Type: text/html` header, a blank line and one heading, then
returns the given status unless the final flush fails, in which case it
returns `internalServerError`.  The second component is the written
output, one fprintf per element. -/
def handle_error (flushOk : Bool) (status : HTTPStatus) :
    HTTPStatus × List (List Char) :=
  (if flushOk then status else .internalServerError,
   [s2l "HTTP/1.0 " ++ http_status_string status ++ s2l "\r\n",
    s2l "Content-Type: text/html\r\n",
    s2l "\r\n",
    s2l "<h1>" ++ http_status_string status ++ s2l "</h1>\r\n"])

/-! ## Dispatch (src/handler.c, `handle_request`) -/

/-- The file-type classification `handle_request` reads from
`lstat`'s `st_mode & S_IFMT`. -/
inductive FileType
  | directory
  | regular
  | other
deriving DecidableEq

/-- What the dispatcher learns about the resolved path: its `lstat` type
and the result of `access(path, X_OK) == 0`. -/
structure FSEntry where
  type : FileType
  executable : Bool
deriving DecidableEq

/-- A fully parsed and resolved request as the handlers receive it. -/
structure ParsedRequest where
  line : RequestLine
  headers : List Header
  path : List Char
deriving DecidableEq

/-- The collaborators of `handle_request`: the external path resolver,
the filesystem as seen through `lstat`/`access`, the three handlers it
dispatches to, and whether the error responder's flush succeeds. -/
structure HandlerEnv where
  determine_request_path : List Char → Option (List Char)
  lstatEntry : List Char → FSEntry
  browse : ParsedRequest → HTTPStatus × List (List Char)
  cgiRun : ParsedRequest → HTTPStatus × List (List Char)
  fileServe : ParsedRequest → HTTPStatus × List (List Char)
  flushOk : Bool

/-- The tail of `handle_request`: `if (result != 0) result =
handle_error(r, result)`, with the error page appended to whatever the
handler already wrote. -/
def finishResult (flushOk : Bool) (res : HTTPStatus × List (List Char)) :
    HTTPStatus × List (List Char) :=
  if res.1.toCode ≠ 0 then
    let er := handle_error flushOk res.1
    (er.1, res.2 ++ er.2)
  else res

/-- `handle_request` of src/handler.c: parse (either phase failing is
`BadRequest`), resolve the URI (`NotFound` on failure), classify the
path by `lstat` type (directory / regular+executable / regular / other),
dispatch, and route any non-zero status through `handle_error`. -/
def handle_request (env : HandlerEnv) (lines : List (List Char)) :
    HTTPStatus × List (List Char) :=
  match parse_request lines with
  | .methodFail => handle_error env.flushOk .badRequest
  | .headerFail => handle_error env.flushOk .badRequest
  | .ok rl hs =>
    match env.determine_request_path rl.uri with
    | none => handle_error env.flushOk .notFound
    | some path =>
      let r : ParsedRequest := ⟨rl, hs, path⟩
      let e := env.lstatEntry path
      let res :=
        if e.type = .directory then env.browse r
        else if e.type = .regular then
          if e.executable then env.cgiRun r else env.fileServe r
        else (.badRequest, ([] : List (List Char)))
      finishResult env.flushOk res

/-! ## Directory listing (src/handler.c, `handle_browse_request`) -/

/-- Lexicographic byte order on names, the order `alphasort` gives
`scandir` (strcmp in the C locale). -/
def lexLe : List Char → List Char → Bool
  | [], _ => true
  | _ :: _, [] => false
  | a :: as, b :: bs => if a < b then true else if a = b then lexLe as bs else false

/-- The propositional form of `lexLe`, for the sorting lemmas. -/
def LexLeP (a b : List Char) : Prop := lexLe a b = true

instance : DecidableRel LexLeP := fun a b => by
  unfold LexLeP; infer_instance

/-- Modelled from the spec: `scandir(path, &entries, NULL, alphasort)`
is a libc collaborator; it returns the directory entries sorted in the
`alphasort` (lexicographic) order.  The sort itself is modelled by
insertion sort, the entries are the oracle's input. -/
def scandirSorted (raw : List (List Char)) : List (List Char) :=
  List.insertionSort LexLeP raw

/-- Modelled from the spec: POSIX `basename(3)` used on the resolved
path (resolved paths have no trailing slash), i.e. the final path
component after the last slash. -/
def basename (p : List Char) : List Char :=
  (p.reverse.takeWhile (fun c => !decide (c = '/'))).reverse

/-- The `<li>` line `handle_browse_request` prints for one entry: the
anchor target is `/<basename(path)>/<entry>` unless the request URI is
exactly `/`, in which case it is `/<entry>`. -/
def renderEntry (uri path e : List Char) : List Char :=
  if uri = s2l "/" then
    s2l "<li><a href=\"/" ++ e ++ s2l "\">" ++ e ++ s2l "</a></li>\r\n"
  else
    s2l "<li><a href=\"/" ++ basename path ++ s2l "/" ++ e ++ s2l "\">"
      ++ e ++ s2l "</a></li>\r\n"

/-- `handle_browse_request` of src/handler.c: scan the directory
(`NotFound` if that fails), write the OK header, one list item per
entry skipping exactly the entry named `.`, close the list, and flush
(`NotFound` on flush failure).  `scandirResult` is `none` when
`scandir` fails, otherwise the raw entries. -/
def handle_browse_request (scandirResult : Option (List (List Char)))
    (flushOk : Bool) (uri path : List Char) : HTTPStatus × List (List Char) :=
  match scandirResult with
  | none => (.notFound, [])
  | some raw =>
    let entries := scandirSorted raw
    let items := entries.filterMap fun e =>
      if e = s2l "." then none else some (renderEntry uri path e)
    let out :=
      [s2l "HTTP/1.0 200 OK\r\n", s2l "Content-Type: text/html\r\n",
       s2l "\r\n", s2l "<ul>\r\n"] ++ items ++ [s2l "</ul>\r\n"]
    if flushOk then (.ok, out) else (.notFound, out)

/-! ## CGI environment export (src/handler.c, `handle_cgi_request`) -/

/-- A process environment as an association list of variable/value
pairs. -/
abbrev Env := List (List Char × List Char)

/-- Modelled from the spec / POSIX: `setenv(name, value, 1)` overwrites
the variable if present and adds it otherwise. -/
def setenv (e : Env) (k v : List Char) : Env :=
  match e with
  | [] => [(k, v)]
  | (k2, v2) :: rest => if k2 = k then (k, v) :: rest else (k2, v2) :: setenv rest k v

/-- Environment lookup (what `getenv` in the CGI child would see). -/
def getenvOf (e : Env) (k : List Char) : Option (List Char) :=
  match e with
  | [] => none
  | (k2, v2) :: rest => if k2 = k then some v2 else getenvOf rest k

/-- The configured globals `handle_cgi_request` reads. -/
structure CGIConfig where
  rootPath : List Char
  serverPort : List Char
deriving DecidableEq

/-- The request fields `handle_cgi_request` reads. -/
structure CGIRequest where
  method : List Char
  uri : List Char
  path : List Char
  query : Option (List Char)
  host : List Char
  port : List Char
  headers : List Header
deriving DecidableEq

/-- The fixed CGI variables `handle_cgi_request` sets before walking the
header list (src/handler.c lines 207-220); a missing query exports the
empty string. -/
def cgi_base_env (cfg : CGIConfig) (r : CGIRequest) (e : Env) : Env :=
  let e1 := setenv e (s2l "DOCUMENT_ROOT") cfg.rootPath
  let e2 := setenv e1 (s2l "QUERY_STRING") (match r.query with | some q => q | none => [])
  let e3 := setenv e2 (s2l "REMOTE_ADDR") r.host
  let e4 := setenv e3 (s2l "REMOTE_PORT") r.port
  let e5 := setenv e4 (s2l "REQUEST_METHOD") r.method
  let e6 := setenv e5 (s2l "REQUEST_URI") r.uri
  let e7 := setenv e6 (s2l "SCRIPT_FILENAME") r.path
  setenv e7 (s2l "SERVER_PORT") cfg.serverPort

/-- One iteration of the header-export loop of `handle_cgi_request`
(src/handler.c lines 223-246): the `if`/`else if` chain over the six
allow-listed header names. -/
def cgi_header_env_step (e : Env) (h : Header) : Env :=
  if h.name = s2l "Host" then setenv e (s2l "HTTP_HOST") h.value
  else if h.name = s2l "Accept" then setenv e (s2l "HTTP_ACCEPT") h.value
  else if h.name = s2l "Accept-Language" then setenv e (s2l "HTTP_ACCEPT_LANGUAGE") h.value
  else if h.name = s2l "Accept-Encoding" then setenv e (s2l "HTTP_ACCEPT_ENCODING") h.value
  else if h.name = s2l "Connection" then setenv e (s2l "HTTP_CONNECTION") h.value
  else if h.name = s2l "User-Agent" then setenv e (s2l "HTTP_USER_AGENT") h.value
  else e

/-- The whole environment `handle_cgi_request` builds before `popen`:
the fixed variables, then the header loop in arrival order. -/
def cgi_export_env (cfg : CGIConfig) (r : CGIRequest) (e : Env) : Env :=
  r.headers.foldl cgi_header_env_step (cgi_base_env cfg r e)

/-- The header-name / environment-variable pairs of the allow list, in
the order of the C `if` chain. -/
def cgiHeaderAllowList : List (List Char × List Char) :=
  [(s2l "Host", s2l "HTTP_HOST"),
   (s2l "Accept", s2l "HTTP_ACCEPT"),
   (s2l "Accept-Language", s2l "HTTP_ACCEPT_LANGUAGE"),
   (s2l "Accept-Encoding", s2l "HTTP_ACCEPT_ENCODING"),
   (s2l "Connection", s2l "HTTP_CONNECTION"),
   (s2l "User-Agent", s2l "HTTP_USER_AGENT")]

/-- The value of the last header named `n` in arrival order, if any. -/
def lastHeaderValue (hs : List Header) (n : List Char) : Option (List Char) :=
  (hs.reverse.find? (fun h => decide (h.name = n))).map Header.value

/-! ## Forking server loop (src/forking.c, `forking_server`) -/

/-- The accept-loop state of `forking_server`: whether the listening
socket is still open. -/
structure ForkState where
  sfdOpen : Bool
deriving DecidableEq

/-- What one loop iteration produced: the successor state and whether a
child process was spawned to serve the accepted connection. -/
structure ForkIterResult where
  state : ForkState
  served : Bool
deriving DecidableEq

/-- One iteration of the `while (true)` loop of `forking_server`, seen
from the parent: `accept` on a closed socket always fails; an accept
failure just continues; a `fork` failure runs `close(sfd); continue;`;
otherwise the child serves the request and the parent frees its copy
and loops. -/
def forking_iteration (st : ForkState) (clientWaiting forkOk : Bool) :
    ForkIterResult :=
  if !(st.sfdOpen && clientWaiting) then ⟨st, false⟩
  else if !forkOk then ⟨⟨false⟩, false⟩
  else ⟨st, true⟩

/-! ## Option parsing (src/spidey.c, `parse_options`) -/

/-- The concurrency mode selected by `-c`. -/
inductive SrvMode
  | single
  | forking
deriving DecidableEq

/-- The mutable state of `parse_options`: the `argind` cursor plus the
globals and the output mode it assigns. -/
structure OptState where
  argind : Nat
  mode : Option SrvMode
  mimeTypesPath : List Char
  defaultMimeType : List Char
  port : List Char
  rootPath : List Char
deriving DecidableEq

/-- What one trip around the `while` loop of `parse_options` does:
return from the function, exit the process via `usage`, or continue
with a new state. -/
inductive OptStep
  | ret (ok : Bool) (st : OptState)
  | exited (code : Nat)
  | next (st : OptState)
deriving DecidableEq

/-- One iteration of `parse_options` (src/spidey.c lines 50-114).  The
loop runs while `argind < argc`, the argument is longer than one
character and starts with `-`; `-h` calls `usage(.., 0)` which exits;
each known flag consumes its argument (missing or `-`-leading
arguments return `false`; an unknown mode string returns `false`); an
argument matching no branch leaves the state unchanged. -/
def parse_options_step (argv : List (List Char)) (st : OptState) : OptStep :=
  match argv.get? st.argind with
  | none => .ret true st
  | some arg =>
    match arg with
    | '-' :: _ :: _ =>
      if arg = s2l "-h" then .exited 0
      else if arg = s2l "-c" then
        match argv.get? (st.argind + 1) with
        | none => .ret false st
        | some p =>
          if p = s2l "Single" then
            .next ⟨st.argind + 2, some .single, st.mimeTypesPath,
                   st.defaultMimeType, st.port, st.rootPath⟩
          else if p = s2l "Forking" then
            .next ⟨st.argind + 2, some .forking, st.mimeTypesPath,
                   st.defaultMimeType, st.port, st.rootPath⟩
          else .ret false st
      else if arg = s2l "-m" then
        match argv.get? (st.argind + 1) with
        | none => .ret false st
        | some p =>
          if p.take 1 = ['-'] then .ret false st
          else .next ⟨st.argind + 2, st.mode, p,
                      st.defaultMimeType, st.port, st.rootPath⟩
      else if arg = s2l "-M" then
        match argv.get? (st.argind + 1) with
        | none => .ret false st
        | some p =>
          if p.take 1 = ['-'] then .ret false st
          else .next ⟨st.argind + 2, st.mode, st.mimeTypesPath,
                      p, st.port, st.rootPath⟩
      else if arg = s2l "-p" then
        match argv.get? (st.argind + 1) with
        | none => .ret false st
        | some p =>
          if p.take 1 = ['-'] then .ret false st
          else .next ⟨st.argind + 2, st.mode, st.mimeTypesPath,
                      st.defaultMimeType, p, st.rootPath⟩
      else if arg = s2l "-r" then
        match argv.get? (st.argind + 1) with
        | none => .ret false st
        | some p =>
          if p.take 1 = ['-'] then .ret false st
          else .next ⟨st.argind + 2, st.mode, st.mimeTypesPath,
                      st.defaultMimeType, st.port, p⟩
      else .next st
    | _ => .ret true st

/-- How `parse_options` can finish: a boolean return to `main`, or a
process exit from `usage` inside `-h`. -/
inductive OptOutcome
  | returned (ok : Bool) (st : OptState)
  | exitedWith (code : Nat)
deriving DecidableEq

/-- Run the `parse_options` loop for at most `fuel` iterations; `none`
means the loop was still running when the fuel ran out. -/
def parse_options_run (argv : List (List Char)) : Nat → OptState → Option OptOutcome
  | 0, _ => none
  | fuel + 1, st =>
    match parse_options_step argv st with
    | .ret ok st2 => some (.returned ok st2)
    | .exited c => some (.exitedWith c)
    | .next st2 => parse_options_run argv fuel st2

/-- A concrete handler environment (everything succeeds, the resolved
path is a directory) used to instantiate the dispatch theorems on
closed inputs. -/
def demoHandlerEnv : HandlerEnv where
  determine_request_path := fun _ => some (s2l "/srv/www/d")
  lstatEntry := fun _ => ⟨.directory, false⟩
  browse := fun _ => (.ok, [s2l "X"])
  cgiRun := fun _ => (.internalServerError, [])
  fileServe := fun _ => (.ok, [])
  flushOk := true

/-! ## List helper lemmas -/

theorem takeWhile_stop (p : Char → Bool) (xs : List Char) (y : Char)
    (ys : List Char) (hx : ∀ c ∈ xs, p c = true) (hy : p y = false) :
    (xs ++ y :: ys).takeWhile p = xs := by
  induction xs with
  | nil => simp [List.takeWhile_cons, hy]
  | cons a as ih =>
      have ha : p a = true := hx a (by simp)
      simp [List.takeWhile_cons, ha]
      exact ih (fun c hc => hx c (by simp [hc]))

theorem dropWhile_stop (p : Char → Bool) (xs : List Char) (y : Char)
    (ys : List Char) (hx : ∀ c ∈ xs, p c = true) (hy : p y = false) :
    (xs ++ y :: ys).dropWhile p = y :: ys := by
  induction xs with
  | nil => simp [List.dropWhile_cons, hy]
  | cons a as ih =>
      have ha : p a = true := hx a (by simp)
      simp [List.dropWhile_cons, ha]
      exact ih (fun c hc => hx c (by simp [hc]))

theorem dropWhile_all (p : Char → Bool) (xs : List Char)
    (hx : ∀ c ∈ xs, p c = true) : xs.dropWhile p = [] := by
  induction xs with
  | nil => rfl
  | cons a as ih =>
      have ha : p a = true := hx a (by simp)
      rw [List.dropWhile_cons, if_pos ha]
      exact ih (fun c hc => hx c (by simp [hc]))

theorem dropWhile_ne_nil_of_mem (p : Char → Bool) (xs : List Char) (c : Char)
    (hc : c ∈ xs) (hp : p c = false) : xs.dropWhile p ≠ [] := by
  induction xs with
  | nil => cases hc
  | cons a as ih =>
      by_cases ha : p a = true
      · have hac : a ≠ c := fun h => by rw [h, hp] at ha; cases ha
        rw [List.dropWhile_cons, if_pos ha]
        exact ih (by rcases List.mem_cons.mp hc with h | h; exact absurd h.symm hac; exact h)
      · rw [List.dropWhile_cons, if_neg ha]
        exact List.cons_ne_nil a as

theorem strtok1_token (tok : List Char) (y : Char) (ys : List Char)
    (htok : tok ≠ []) (hnd : ∀ c ∈ tok, isTokDelim c = false)
    (hy : isTokDelim y = true) :
    strtok1 (tok ++ y :: ys) = some (tok, y :: ys) := by
  obtain ⟨t, ts, rfl⟩ := List.exists_cons_of_ne_nil htok
  have hdrop : (t :: ts ++ y :: ys).dropWhile isTokDelim = t :: ts ++ y :: ys := by
    rw [List.cons_append, List.dropWhile_cons, if_neg]
    simp [hnd t (by simp)]
  have hne : ∀ c ∈ t :: ts, (fun c => !isTokDelim c) c = true := by
    intro c hc; simp [hnd c hc]
  have hyf : (fun c => !isTokDelim c) y = false := by simp [hy]
  simp only [strtok1, hdrop]
  rw [takeWhile_stop _ _ _ _ hne hyf, dropWhile_stop _ _ _ _ hne hyf]
  rw [List.cons_append]

theorem strtok1_delim_token (d : Char) (tok : List Char) (y : Char) (ys : List Char)
    (hd : isTokDelim d = true) (htok : tok ≠ [])
    (hnd : ∀ c ∈ tok, isTokDelim c = false) (hy : isTokDelim y = true) :
    strtok1 (d :: (tok ++ y :: ys)) = some (tok, y :: ys) := by
  obtain ⟨t, ts, rfl⟩ := List.exists_cons_of_ne_nil htok
  have hdrop : (d :: (t :: ts ++ y :: ys)).dropWhile isTokDelim
      = t :: ts ++ y :: ys := by
    rw [List.dropWhile_cons, if_pos hd, List.cons_append, List.dropWhile_cons, if_neg]
    simp [hnd t (by simp)]
  have hne : ∀ c ∈ t :: ts, (fun c => !isTokDelim c) c = true := by
    intro c hc; simp [hnd c hc]
  have hyf : (fun c => !isTokDelim c) y = false := by simp [hy]
  simp only [strtok1, hdrop]
  rw [takeWhile_stop _ _ _ _ hne hyf, dropWhile_stop _ _ _ _ hne hyf]
  rw [List.cons_append]

theorem strtok1_all_delim (d : List Char)
    (hd : ∀ c ∈ d, isTokDelim c = true) : strtok1 d = none := by
  simp only [strtok1, dropWhile_all _ _ hd]

theorem takeWhile_all (p : Char → Bool) (xs : List Char)
    (hx : ∀ c ∈ xs, p c = true) : xs.takeWhile p = xs := by
  induction xs with
  | nil => rfl
  | cons a as ih =>
      rw [List.takeWhile_cons, if_pos (hx a (by simp))]
      rw [ih (fun c hc => hx c (by simp [hc]))]

theorem strtok1_last_token (d1 tok d2 : List Char)
    (hd1 : ∀ c ∈ d1, isTokDelim c = true) (htok : tok ≠ [])
    (hnd : ∀ c ∈ tok, isTokDelim c = false)
    (hd2 : ∀ c ∈ d2, isTokDelim c = true) :
    strtok1 (d1 ++ tok ++ d2) = some (tok, d2) := by
  obtain ⟨t, ts, rfl⟩ := List.exists_cons_of_ne_nil htok
  have e1 : d1 ++ (t :: ts) ++ d2 = d1 ++ t :: (ts ++ d2) := by simp
  have hdrop : (d1 ++ t :: (ts ++ d2)).dropWhile isTokDelim = t :: (ts ++ d2) :=
    dropWhile_stop _ _ _ _ hd1 (hnd t (by simp))
  have hne : ∀ c ∈ t :: ts, (fun c => !isTokDelim c) c = true := by
    intro c hc; simp [hnd c hc]
  rw [e1]
  simp only [strtok1, hdrop]
  cases d2 with
  | nil =>
      have e2 : t :: (ts ++ []) = t :: ts := by simp
      rw [e2, takeWhile_all _ _ hne, dropWhile_all]
      intro c hc; simp [hnd c hc]
  | cons y ys =>
      have e3 : t :: (ts ++ y :: ys) = (t :: ts) ++ y :: ys := by simp
      have hyf : (fun c => !isTokDelim c) y = false := by simp [hd2 y (by simp)]
      rw [e3, takeWhile_stop _ _ _ _ hne hyf, dropWhile_stop _ _ _ _ hne hyf]

theorem parse_header_line_is_some (h : List Char) (c : Char)
    (hc : c ∈ h) (hcol : c = ':') : ∃ t, parse_header_line h = some t := by
  subst hcol
  have hne : h.dropWhile (fun c => !decide (c = ':')) ≠ [] :=
    dropWhile_ne_nil_of_mem _ _ _ hc (by simp)
  simp only [parse_header_line]
  cases hd : h.dropWhile (fun c => !decide (c = ':')) with
  | nil => exact absurd hd hne
  | cons a rest => exact ⟨_, rfl⟩

theorem parse_header_line_is_none (b : List Char)
    (hb : ∀ c ∈ b, c ≠ ':') : parse_header_line b = none := by
  have hall : b.dropWhile (fun c => !decide (c = ':')) = [] := by
    refine dropWhile_all _ _ ?_
    intro c hc; simp [hb c hc]
  simp only [parse_header_line, hall]

theorem parse_request_headers_fail (pre : List (List Char)) (bad : List Char)
    (tail2 : List (List Char))
    (hpre : ∀ h ∈ pre, (∃ c ∈ h, c = ':') ∧ ¬(h = s2l "\n" ∨ h = s2l "\r\n"))
    (hbad1 : ∀ c ∈ bad, c ≠ ':') (hbad2 : ¬(bad = s2l "\n" ∨ bad = s2l "\r\n")) :
    ∀ acc, parse_request_headers (pre ++ bad :: tail2) acc = none := by
  induction pre with
  | nil =>
      intro acc
      rw [List.nil_append, parse_request_headers, if_neg hbad2,
        parse_header_line_is_none bad hbad1]
  | cons h pre ih =>
      intro acc
      obtain ⟨⟨c, hcmem, hccol⟩, hterm⟩ := hpre h (by simp)
      obtain ⟨t, ht⟩ := parse_header_line_is_some h c hcmem hccol
      rw [List.cons_append, parse_request_headers, if_neg hterm, ht]
      exact ih (fun g hg => hpre g (by simp [hg])) _

/-! ## Lexicographic order lemmas -/

theorem lexLe_total : ∀ a b : List Char, lexLe a b = true ∨ lexLe b a = true
  | [], _ => Or.inl rfl
  | _ :: _, [] => Or.inr rfl
  | a :: as, b :: bs => by
      rcases lt_trichotomy a b with h | h | h
      · left; simp [lexLe, h]
      · subst h
        rcases lexLe_total as bs with ih | ih
        · left; simp [lexLe, lt_irrefl, ih]
        · right; simp [lexLe, lt_irrefl, ih]
      · right; simp [lexLe, h]

theorem lexLe_trans :
    ∀ a b c : List Char, lexLe a b = true → lexLe b c = true → lexLe a c = true
  | [], _, _, _, _ => rfl
  | _ :: _, [], _, h1, _ => by simp [lexLe] at h1
  | _ :: _, _ :: _, [], _, h2 => by simp [lexLe] at h2
  | a :: as, b :: bs, c :: cs, h1, h2 => by
      simp only [lexLe] at h1 h2 ⊢
      rcases lt_trichotomy a b with hab | hab | hab
      · rcases lt_trichotomy b c with hbc | hbc | hbc
        · simp [lt_trans hab hbc]
        · subst hbc; simp [hab]
        · rw [if_neg (lt_asymm hbc), if_neg (ne_of_gt hbc)] at h2
          exact absurd h2 Bool.false_ne_true
      · subst hab
        rw [if_neg (lt_irrefl a), if_pos rfl] at h1
        rcases lt_trichotomy a c with hac | hac | hac
        · simp [hac]
        · subst hac
          rw [if_neg (lt_irrefl a), if_pos rfl] at h2 ⊢
          exact lexLe_trans as bs cs h1 h2
        · rw [if_neg (lt_asymm hac), if_neg (ne_of_gt hac)] at h2
          exact absurd h2 Bool.false_ne_true
      · rw [if_neg (lt_asymm hab), if_neg (ne_of_gt hab)] at h1
        exact absurd h1 Bool.false_ne_true

theorem filterMap_skip_dot (g : List Char → List Char) (dot : List Char) :
    ∀ l : List (List Char),
      l.filterMap (fun e => if e = dot then none else some (g e))
        = (l.filter (fun e => !decide (e = dot))).map g
  | [] => rfl
  | a :: l => by
      by_cases h : a = dot
      · simp [List.filterMap_cons, List.filter_cons, h, filterMap_skip_dot g dot l]
      · simp [List.filterMap_cons, List.filter_cons, h, filterMap_skip_dot g dot l]

/-! ## Environment lemmas -/

theorem getenv_setenv (e : Env) (k v k2 : List Char) :
    getenvOf (setenv e k v) k2 = if k2 = k then some v else getenvOf e k2 := by
  induction e with
  | nil =>
      by_cases h : k2 = k
      · subst h; simp [setenv, getenvOf]
      · simp [setenv, getenvOf, h, Ne.symm h]
  | cons p rest ih =>
      obtain ⟨k1, v1⟩ := p
      by_cases h1 : k1 = k
      · subst h1
        by_cases h2 : k2 = k1
        · subst h2; simp [setenv, getenvOf]
        · simp [setenv, getenvOf, h2, Ne.symm h2]
      · by_cases h2 : k1 = k2
        · subst h2
          simp [setenv, getenvOf, h1]
        · simp [setenv, getenvOf, h1, h2, ih]

theorem getenv_setenv_self (e : Env) (k v : List Char) :
    getenvOf (setenv e k v) k = some v := by
  rw [getenv_setenv, if_pos rfl]

theorem getenv_setenv_other (e : Env) (k v k2 : List Char) (h : k2 ≠ k) :
    getenvOf (setenv e k v) k2 = getenvOf e k2 := by
  rw [getenv_setenv, if_neg h]

theorem cgi_step_lookup_hit (e : Env) (h : Header) (n var : List Char)
    (hmem : (n, var) ∈ cgiHeaderAllowList) (hname : h.name = n) :
    getenvOf (cgi_header_env_step e h) var = some h.value := by
  fin_cases hmem <;>
    · simp only [cgi_header_env_step]
      split_ifs <;>
        first
          | exact getenv_setenv_self _ _ _
          | exact absurd (hname.symm.trans ‹_›) (by decide)

theorem cgi_step_lookup_miss (e : Env) (h : Header) (n var : List Char)
    (hmem : (n, var) ∈ cgiHeaderAllowList) (hname : h.name ≠ n) :
    getenvOf (cgi_header_env_step e h) var = getenvOf e var := by
  fin_cases hmem <;>
    · simp only [cgi_header_env_step]
      split_ifs <;>
        first
          | exact absurd ‹_› hname
          | exact getenv_setenv_other _ _ _ _ (by decide)
          | rfl

theorem cgi_fold_lookup (hs : List Header) (e : Env) (n var : List Char)
    (hmem : (n, var) ∈ cgiHeaderAllowList) :
    getenvOf (hs.foldl cgi_header_env_step e) var
      = Option.or ((hs.reverse.find? (fun h => decide (h.name = n))).map Header.value)
          (getenvOf e var) := by
  induction hs generalizing e with
  | nil => simp
  | cons h hs ih =>
      rw [List.foldl_cons, ih (cgi_header_env_step e h), List.reverse_cons,
        List.find?_append]
      by_cases hn : h.name = n
      · have hf : List.find? (fun h2 => decide (h2.name = n)) [h] = some h := by
          simp [List.find?, hn]
        rw [hf, cgi_step_lookup_hit e h n var hmem hn]
        cases List.find? (fun h2 => decide (h2.name = n)) hs.reverse with
        | none => simp [Option.or]
        | some g => simp [Option.or]
      · have hf : List.find? (fun h2 => decide (h2.name = n)) [h] = none := by
          simp [List.find?, hn]
        rw [hf, cgi_step_lookup_miss e h n var hmem hn]
        cases List.find? (fun h2 => decide (h2.name = n)) hs.reverse with
        | none => simp [Option.or]
        | some g => simp [Option.or]

theorem cgi_base_env_no_http (cfg : CGIConfig) (r : CGIRequest) (n var : List Char)
    (hmem : (n, var) ∈ cgiHeaderAllowList) :
    getenvOf (cgi_base_env cfg r []) var = none := by
  fin_cases hmem <;> rfl

theorem cgi_step_other_keys (e : Env) (h : Header) (k : List Char)
    (hk : ∀ pr ∈ cgiHeaderAllowList, k ≠ pr.2) :
    getenvOf (cgi_header_env_step e h) k = getenvOf e k := by
  simp only [cgi_header_env_step]
  split_ifs
  · exact getenv_setenv_other _ _ _ _
      (hk (s2l "Host", s2l "HTTP_HOST") (by simp [cgiHeaderAllowList]))
  · exact getenv_setenv_other _ _ _ _
      (hk (s2l "Accept", s2l "HTTP_ACCEPT") (by simp [cgiHeaderAllowList]))
  · exact getenv_setenv_other _ _ _ _
      (hk (s2l "Accept-Language", s2l "HTTP_ACCEPT_LANGUAGE") (by simp [cgiHeaderAllowList]))
  · exact getenv_setenv_other _ _ _ _
      (hk (s2l "Accept-Encoding", s2l "HTTP_ACCEPT_ENCODING") (by simp [cgiHeaderAllowList]))
  · exact getenv_setenv_other _ _ _ _
      (hk (s2l "Connection", s2l "HTTP_CONNECTION") (by simp [cgiHeaderAllowList]))
  · exact getenv_setenv_other _ _ _ _
      (hk (s2l "User-Agent", s2l "HTTP_USER_AGENT") (by simp [cgiHeaderAllowList]))
  · rfl

theorem cgi_fold_other_keys (hs : List Header) (e : Env) (k : List Char)
    (hk : ∀ pr ∈ cgiHeaderAllowList, k ≠ pr.2) :
    getenvOf (hs.foldl cgi_header_env_step e) k = getenvOf e k := by
  induction hs generalizing e with
  | nil => rfl
  | cons h hs ih => rw [List.foldl_cons, ih (cgi_header_env_step e h),
      cgi_step_other_keys e h k hk]

/-! ## Claim theorems -/

/-- Claim C1 (code bug evidence): on the four-header block
`A: 1`, `B: 2`, `C: 3`, `D: 4`, the parser of src/request.c produces the
list `A, B, D` — the third header is dropped because the `curr` cursor of
`parse_request_headers` is never advanced past the second node, so every
header after the second overwrites the third slot instead of being
appended.  The claim (every header line appears, in arrival order) is
what the function's own doc comment (`headers.append(header)`) promises,
so the code, not the claim, is wrong. -/
theorem c1_third_header_dropped :
    Spidey.parse_request_headers
        [Spidey.s2l "A: 1\n", Spidey.s2l "B: 2\n", Spidey.s2l "C: 3\n",
         Spidey.s2l "D: 4\n", Spidey.s2l "\n"] []
      = some [⟨Spidey.s2l "A", Spidey.s2l "1"⟩, ⟨Spidey.s2l "B", Spidey.s2l "2"⟩,
              ⟨Spidey.s2l "D", Spidey.s2l "4"⟩] := by decide

/-- Claim C2: for a request line `METHOD URI?QUERY HTTP/V` terminated by
a newline, `parse_request_method` of src/request.c stores the method,
stores as URI exactly the text before the first `?` of the URI token,
and stores as query the text after that `?` (which may itself contain
further `?` characters); for a request line without `?` the query is
left unset. -/
theorem c2_request_line_query_split (m u q v : List Char)
    (hm : m ≠ [] ∧ ∀ c ∈ m, Spidey.isTokDelim c = false)
    (hu : u ≠ [] ∧ ∀ c ∈ u, Spidey.isTokDelim c = false ∧ c ≠ '?')
    (hq : ∀ c ∈ q, Spidey.isTokDelim c = false) :
    Spidey.parse_request_method
        (m ++ [' '] ++ (u ++ ['?'] ++ q) ++ [' '] ++ (Spidey.s2l "HTTP/" ++ v) ++ ['\n'])
      = some ⟨m, u, some q⟩
    ∧ Spidey.parse_request_method
        (m ++ [' '] ++ u ++ [' '] ++ (Spidey.s2l "HTTP/" ++ v) ++ ['\n'])
      = some ⟨m, u, none⟩ := by
  obtain ⟨hm1, hm2⟩ := hm
  obtain ⟨hu1, hu2⟩ := hu
  have hud : ∀ c ∈ u, Spidey.isTokDelim c = false := fun c hc => (hu2 c hc).1
  have huq : ∀ c ∈ u, c ≠ '?' := fun c hc => (hu2 c hc).2
  have hsp : Spidey.isTokDelim ' ' = true := rfl
  constructor
  · have e1 : m ++ [' '] ++ (u ++ ['?'] ++ q) ++ [' '] ++ (Spidey.s2l "HTTP/" ++ v) ++ ['\n']
        = m ++ ' ' :: ((u ++ '?' :: q) ++ ' ' :: (Spidey.s2l "HTTP/" ++ v ++ ['\n'])) := by
      simp [List.append_assoc]
    have htokq : ∀ c ∈ u ++ '?' :: q, Spidey.isTokDelim c = false := by
      intro c hc
      rcases List.mem_append.mp hc with h | h
      · exact hud c h
      · rcases List.mem_cons.mp h with h | h
        · rw [h]; rfl
        · exact hq c h
    have hst1 : Spidey.strtok1 (m ++ ' ' :: ((u ++ '?' :: q) ++ ' ' :: (Spidey.s2l "HTTP/" ++ v ++ ['\n'])))
        = some (m, ' ' :: ((u ++ '?' :: q) ++ ' ' :: (Spidey.s2l "HTTP/" ++ v ++ ['\n']))) :=
      Spidey.strtok1_token m ' ' _ hm1 hm2 hsp
    have hst2 : Spidey.strtok1 (' ' :: ((u ++ '?' :: q) ++ ' ' :: (Spidey.s2l "HTTP/" ++ v ++ ['\n'])))
        = some (u ++ '?' :: q, ' ' :: (Spidey.s2l "HTTP/" ++ v ++ ['\n'])) :=
      Spidey.strtok1_delim_token ' ' (u ++ '?' :: q) ' ' _ hsp (by simp) htokq hsp
    have hqmark : (fun c => !decide (c = '?')) '?' = false := by simp
    have huq2 : ∀ c ∈ u, (fun c => !decide (c = '?')) c = true := by
      intro c hc; simp [huq c hc]
    have hdw : (u ++ '?' :: q).dropWhile (fun c => !decide (c = '?')) = '?' :: q :=
      Spidey.dropWhile_stop _ _ _ _ huq2 hqmark
    have hlen : (u ++ '?' :: q).length - q.length - 1 = u.length := by
      simp only [List.length_append, List.length_cons]
      omega
    have htake : (u ++ '?' :: q).take u.length = u := List.take_left u ('?' :: q)
    rw [e1]
    simp only [Spidey.parse_request_method, hst1, hst2, hdw, hlen, htake]
  · have e2 : m ++ [' '] ++ u ++ [' '] ++ (Spidey.s2l "HTTP/" ++ v) ++ ['\n']
        = m ++ ' ' :: (u ++ ' ' :: (Spidey.s2l "HTTP/" ++ v ++ ['\n'])) := by
      simp [List.append_assoc]
    have hst1 : Spidey.strtok1 (m ++ ' ' :: (u ++ ' ' :: (Spidey.s2l "HTTP/" ++ v ++ ['\n'])))
        = some (m, ' ' :: (u ++ ' ' :: (Spidey.s2l "HTTP/" ++ v ++ ['\n']))) :=
      Spidey.strtok1_token m ' ' _ hm1 hm2 hsp
    have hst2 : Spidey.strtok1 (' ' :: (u ++ ' ' :: (Spidey.s2l "HTTP/" ++ v ++ ['\n'])))
        = some (u, ' ' :: (Spidey.s2l "HTTP/" ++ v ++ ['\n'])) :=
      Spidey.strtok1_delim_token ' ' u ' ' _ hsp hu1 hud hsp
    have hdw : u.dropWhile (fun c => !decide (c = '?')) = [] := by
      refine Spidey.dropWhile_all _ _ ?_
      intro c hc; simp [huq c hc]
    rw [e2]
    simp only [Spidey.parse_request_method, hst1, hst2, hdw]

/-- Claim C2 witness: the theorem applied to the concrete request lines
`GET /index.html?a=b HTTP/1.0` and `GET /index.html HTTP/1.0`. -/
theorem c2_request_line_query_split_witness :
    Spidey.parse_request_method
        (Spidey.s2l "GET" ++ [' '] ++ (Spidey.s2l "/index.html" ++ ['?'] ++ Spidey.s2l "a=b")
          ++ [' '] ++ (Spidey.s2l "HTTP/" ++ Spidey.s2l "1.0") ++ ['\n'])
      = some ⟨Spidey.s2l "GET", Spidey.s2l "/index.html", some (Spidey.s2l "a=b")⟩
    ∧ Spidey.parse_request_method
        (Spidey.s2l "GET" ++ [' '] ++ Spidey.s2l "/index.html" ++ [' ']
          ++ (Spidey.s2l "HTTP/" ++ Spidey.s2l "1.0") ++ ['\n'])
      = some ⟨Spidey.s2l "GET", Spidey.s2l "/index.html", none⟩ :=
  c2_request_line_query_split (Spidey.s2l "GET") (Spidey.s2l "/index.html")
    (Spidey.s2l "a=b") (Spidey.s2l "1.0")
    (by refine ⟨by decide, ?_⟩; decide)
    (by refine ⟨by decide, ?_⟩; decide)
    (by decide)

/-- Claim C5: a request line with no token at all, a request line with a
method token but no URI token, and a header block containing a
non-terminator line without `:` all make `parse_request` fail, and
`handle_request` of src/handler.c answers each with `BadRequest` routed
through the error responder (`handle_error`), whose page and status are
the request's final result. -/
theorem c5_parse_failure_routes_bad_request (env : Spidey.HandlerEnv)
    (hf : env.flushOk = true) :
    (∀ l1 rest, (∀ c ∈ l1, Spidey.isTokDelim c = true) →
       Spidey.handle_request env (l1 :: rest)
         = Spidey.handle_error true .badRequest) ∧
    (∀ d1 tok d2 rest, (∀ c ∈ d1, Spidey.isTokDelim c = true) → tok ≠ [] →
       (∀ c ∈ tok, Spidey.isTokDelim c = false) →
       (∀ c ∈ d2, Spidey.isTokDelim c = true) →
       Spidey.handle_request env ((d1 ++ tok ++ d2) :: rest)
         = Spidey.handle_error true .badRequest) ∧
    (∀ line1 rl pre bad tail2,
       Spidey.parse_request_method line1 = some rl →
       (∀ h ∈ pre, (∃ c ∈ h, c = ':') ∧
          ¬(h = Spidey.s2l "\n" ∨ h = Spidey.s2l "\r\n")) →
       (∀ c ∈ bad, c ≠ ':') →
       ¬(bad = Spidey.s2l "\n" ∨ bad = Spidey.s2l "\r\n") →
       Spidey.handle_request env (line1 :: (pre ++ bad :: tail2))
         = Spidey.handle_error true .badRequest) := by
  refine ⟨?_, ?_, ?_⟩
  · intro l1 rest h
    have h1 : Spidey.parse_request_method l1 = none := by
      simp only [Spidey.parse_request_method, Spidey.strtok1_all_delim l1 h]
    have h2 : Spidey.parse_request (l1 :: rest) = .methodFail := by
      simp only [Spidey.parse_request, h1]
    simp only [Spidey.handle_request, h2, hf]
  · intro d1 tok d2 rest hd1 htok hnd hd2
    have h1 : Spidey.parse_request_method (d1 ++ tok ++ d2) = none := by
      simp only [Spidey.parse_request_method,
        Spidey.strtok1_last_token d1 tok d2 hd1 htok hnd hd2,
        Spidey.strtok1_all_delim d2 hd2]
    have h2 : Spidey.parse_request ((d1 ++ tok ++ d2) :: rest) = .methodFail := by
      simp only [Spidey.parse_request, h1]
    simp only [Spidey.handle_request, h2, hf]
  · intro line1 rl pre bad tail2 hline hpre hbad1 hbad2
    have h1 : Spidey.parse_request_headers (pre ++ bad :: tail2) [] = none :=
      Spidey.parse_request_headers_fail pre bad tail2 hpre hbad1 hbad2 []
    have h2 : Spidey.parse_request (line1 :: (pre ++ bad :: tail2)) = .headerFail := by
      simp only [Spidey.parse_request, hline, h1]
    simp only [Spidey.handle_request, h2, hf]

/-- Claim C5 witness: the theorem applied to an empty request line, to
the one-token request line `GET`, and to a request with a header line
`NoColon` lacking a colon. -/
theorem c5_parse_failure_routes_bad_request_witness :
    Spidey.handle_request Spidey.demoHandlerEnv [Spidey.s2l "\n"]
      = Spidey.handle_error true .badRequest ∧
    Spidey.handle_request Spidey.demoHandlerEnv
        (([] ++ Spidey.s2l "GET" ++ ['\n']) :: [])
      = Spidey.handle_error true .badRequest ∧
    Spidey.handle_request Spidey.demoHandlerEnv
        (Spidey.s2l "GET / HTTP/1.0\n" :: ([] ++ Spidey.s2l "NoColon\n" :: []))
      = Spidey.handle_error true .badRequest := by
  have h := c5_parse_failure_routes_bad_request Spidey.demoHandlerEnv rfl
  refine ⟨h.1 (Spidey.s2l "\n") [] (by decide), ?_, ?_⟩
  · exact h.2.1 [] (Spidey.s2l "GET") ['\n'] [] (by simp) (by decide) (by decide) (by decide)
  · refine h.2.2 (Spidey.s2l "GET / HTTP/1.0\n") ⟨Spidey.s2l "GET", Spidey.s2l "/", none⟩
      [] (Spidey.s2l "NoColon\n") [] (by decide) (by simp) (by decide) (by decide)

/-- Claim C3: once a request has parsed, `handle_request` of
src/handler.c resolves the URI (`NotFound` through the error responder
when resolution fails) and dispatches on the `lstat` type of the
resolved path: a directory goes to the browse handler, a regular
executable file to the CGI handler, a regular non-executable file to the
file handler, and any other entry type becomes `BadRequest` through the
error responder. -/
theorem c3_dispatch_by_file_type (env : Spidey.HandlerEnv)
    (lines : List (List Char)) (rl : Spidey.RequestLine) (hs : List Spidey.Header)
    (hp : Spidey.parse_request lines = .ok rl hs)
    (hf : env.flushOk = true) :
    (env.determine_request_path rl.uri = none →
       Spidey.handle_request env lines = Spidey.handle_error true .notFound) ∧
    (∀ path, env.determine_request_path rl.uri = some path →
      ((env.lstatEntry path).type = .directory →
         Spidey.handle_request env lines
           = Spidey.finishResult true (env.browse ⟨rl, hs, path⟩)) ∧
      ((env.lstatEntry path).type = .regular →
         (env.lstatEntry path).executable = true →
         Spidey.handle_request env lines
           = Spidey.finishResult true (env.cgiRun ⟨rl, hs, path⟩)) ∧
      ((env.lstatEntry path).type = .regular →
         (env.lstatEntry path).executable = false →
         Spidey.handle_request env lines
           = Spidey.finishResult true (env.fileServe ⟨rl, hs, path⟩)) ∧
      ((env.lstatEntry path).type = .other →
         Spidey.handle_request env lines
           = (.badRequest, (Spidey.handle_error true .badRequest).2))) := by
  constructor
  · intro hres
    simp only [Spidey.handle_request, hp, hres, hf]
  · intro path hres
    refine ⟨?_, ?_, ?_, ?_⟩
    · intro ht
      simp only [Spidey.handle_request, hp, hres, ht, hf]
      rfl
    · intro ht hx
      simp only [Spidey.handle_request, hp, hres, ht, hx, hf]
      rfl
    · intro ht hx
      simp only [Spidey.handle_request, hp, hres, ht, hx, hf]
      rfl
    · intro ht
      simp only [Spidey.handle_request, hp, hres, ht, hf]
      rfl

/-- Claim C3 witness: the theorem applied to the environment whose
resolver returns a directory path, on the request `GET / HTTP/1.0`. -/
theorem c3_dispatch_by_file_type_witness :
    Spidey.handle_request Spidey.demoHandlerEnv
        [Spidey.s2l "GET / HTTP/1.0\n", Spidey.s2l "\n"]
      = Spidey.finishResult true
          (Spidey.demoHandlerEnv.browse
            ⟨⟨Spidey.s2l "GET", Spidey.s2l "/", none⟩, [], Spidey.s2l "/srv/www/d"⟩) :=
  (((c3_dispatch_by_file_type Spidey.demoHandlerEnv
      [Spidey.s2l "GET / HTTP/1.0\n", Spidey.s2l "\n"]
      ⟨Spidey.s2l "GET", Spidey.s2l "/", none⟩ [] (by decide) rfl).2
    (Spidey.s2l "/srv/www/d") rfl).1) rfl

/-- Claim C6: `handle_browse_request` of src/handler.c emits one list
item per directory entry, in lexicographic order, excluding exactly the
entry named `.` (so `..` and dotfiles remain); the anchor target is the
bare entry name under `/` when the request URI is exactly `/`, and is
prefixed with the resolved directory's base name otherwise.  `names` is
a lexicographically sorted permutation of the raw entries with `.`
removed, and the emitted body maps `renderEntry` over it. -/
theorem c6_browse_directory_listing (raw : List (List Char)) (uri path : List Char) :
    ∃ names : List (List Char),
      names.Perm (raw.filter (fun e => !decide (e = Spidey.s2l "."))) ∧
      names.Pairwise Spidey.LexLeP ∧
      Spidey.handle_browse_request (some raw) true uri path
        = (.ok,
           [Spidey.s2l "HTTP/1.0 200 OK\r\n", Spidey.s2l "Content-Type: text/html\r\n",
            Spidey.s2l "\r\n", Spidey.s2l "<ul>\r\n"]
           ++ names.map (Spidey.renderEntry uri path)
           ++ [Spidey.s2l "</ul>\r\n"]) ∧
      (uri = Spidey.s2l "/" → ∀ e, Spidey.renderEntry uri path e
        = Spidey.s2l "<li><a href=\"/" ++ e ++ Spidey.s2l "\">" ++ e
            ++ Spidey.s2l "</a></li>\r\n") ∧
      (uri ≠ Spidey.s2l "/" → ∀ e, Spidey.renderEntry uri path e
        = Spidey.s2l "<li><a href=\"/" ++ Spidey.basename path ++ Spidey.s2l "/" ++ e
            ++ Spidey.s2l "\">" ++ e ++ Spidey.s2l "</a></li>\r\n") := by
  refine ⟨(Spidey.scandirSorted raw).filter (fun e => !decide (e = Spidey.s2l ".")),
    ?_, ?_, ?_, ?_, ?_⟩
  · exact List.Perm.filter _ (List.perm_insertionSort Spidey.LexLeP raw)
  · exact List.Pairwise.filter _
      (@List.sorted_insertionSort _ Spidey.LexLeP _ ⟨lexLe_total⟩
        ⟨fun _ _ _ => lexLe_trans _ _ _⟩ raw)
  · simp only [Spidey.handle_browse_request]
    rw [filterMap_skip_dot]
    rfl
  · intro h e
    simp only [Spidey.renderEntry, if_pos h]
  · intro h e
    simp only [Spidey.renderEntry, if_neg h]

/-- Claim C6 witness: the theorem applied to the concrete directory
containing `.`, `..`, `b.txt` and `.hidden`, requested as URI `/dir`
resolved to path `/srv/www/dir`. -/
theorem c6_browse_directory_listing_witness :
    ∃ names : List (List Char),
      names.Perm
        ([Spidey.s2l ".", Spidey.s2l "..", Spidey.s2l "b.txt", Spidey.s2l ".hidden"].filter
          (fun e => !decide (e = Spidey.s2l "."))) ∧
      names.Pairwise Spidey.LexLeP ∧
      Spidey.handle_browse_request
          (some [Spidey.s2l ".", Spidey.s2l "..", Spidey.s2l "b.txt", Spidey.s2l ".hidden"])
          true (Spidey.s2l "/dir") (Spidey.s2l "/srv/www/dir")
        = (.ok,
           [Spidey.s2l "HTTP/1.0 200 OK\r\n", Spidey.s2l "Content-Type: text/html\r\n",
            Spidey.s2l "\r\n", Spidey.s2l "<ul>\r\n"]
           ++ names.map (Spidey.renderEntry (Spidey.s2l "/dir") (Spidey.s2l "/srv/www/dir"))
           ++ [Spidey.s2l "</ul>\r\n"]) ∧
      (Spidey.s2l "/dir" = Spidey.s2l "/" →
        ∀ e, Spidey.renderEntry (Spidey.s2l "/dir") (Spidey.s2l "/srv/www/dir") e
          = Spidey.s2l "<li><a href=\"/" ++ e ++ Spidey.s2l "\">" ++ e
              ++ Spidey.s2l "</a></li>\r\n") ∧
      (Spidey.s2l "/dir" ≠ Spidey.s2l "/" →
        ∀ e, Spidey.renderEntry (Spidey.s2l "/dir") (Spidey.s2l "/srv/www/dir") e
          = Spidey.s2l "<li><a href=\"/" ++ Spidey.basename (Spidey.s2l "/srv/www/dir")
              ++ Spidey.s2l "/" ++ e ++ Spidey.s2l "\">" ++ e
              ++ Spidey.s2l "</a></li>\r\n") :=
  c6_browse_directory_listing
    [Spidey.s2l ".", Spidey.s2l "..", Spidey.s2l "b.txt", Spidey.s2l ".hidden"]
    (Spidey.s2l "/dir") (Spidey.s2l "/srv/www/dir")

/-- Claim C4 (counterexample): when `accept` succeeds but `getnameinfo`
fails, `accept_request` of src/request.c takes `goto fail` and returns
`NULL` — it does not proceed with empty host/port as the claim states. -/
theorem c4_nameinfo_failure_returns_absent :
    Spidey.accept_request true false true = none := rfl

/-- Claim C4 (amended): peer-name resolution failure is fatal to the
connection: `accept_request` returns absent when `accept`, `getnameinfo`
or `fdopen` fails, and returns a Request only when all three succeed —
that request has empty host and port, since `getnameinfo` is called
with zero-length buffers. -/
theorem c4_resolution_failure_is_fatal (a n f : Bool) :
    Spidey.accept_request a n f
      = if a && n && f then some ⟨[], []⟩ else none := by
  revert a n f; decide

/-- Claim C7 (counterexample): for a CGI request whose header list has
no `Host` header (here a single `Accept` header), the environment built
by `handle_cgi_request` of src/handler.c contains no `HTTP_HOST` at all —
the `setenv("HTTP_HOST", "", 1)` branch runs only when a `Host` header
with a null value exists, never when the header is absent, so the claim
that `HTTP_HOST` is exported as the empty string is false. -/
theorem c7_no_host_header_leaves_host_unset :
    Spidey.getenvOf
      (Spidey.cgi_export_env ⟨Spidey.s2l "/srv/www", Spidey.s2l "9898"⟩
        ⟨Spidey.s2l "GET", Spidey.s2l "/a.cgi", Spidey.s2l "/srv/www/a.cgi", none,
         [], [], [⟨Spidey.s2l "Accept", Spidey.s2l "text/html"⟩]⟩ [])
      (Spidey.s2l "HTTP_HOST") = none := by decide

/-- Claim C7 (amended): exactly the allow-listed header names present in
the request's header list are exported as `HTTP_<UPPER_SNAKE_NAME>`
variables; an absent allow-listed header — `Host` included — is simply
not exported, and no header can set a variable outside the allow list. -/
theorem c7_absent_allowlisted_header_not_exported
    (cfg : Spidey.CGIConfig) (m u p2 : List Char) (q : Option (List Char))
    (hst prt : List Char) (hs : List Spidey.Header) :
    (∀ n var, (n, var) ∈ Spidey.cgiHeaderAllowList →
      ((Spidey.getenvOf
          (Spidey.cgi_export_env cfg ⟨m, u, p2, q, hst, prt, hs⟩ []) var).isSome
        ↔ ∃ h ∈ hs, h.name = n)) ∧
    (∀ k, (∀ pr ∈ Spidey.cgiHeaderAllowList, k ≠ pr.2) →
      Spidey.getenvOf (Spidey.cgi_export_env cfg ⟨m, u, p2, q, hst, prt, hs⟩ []) k
        = Spidey.getenvOf (Spidey.cgi_base_env cfg ⟨m, u, p2, q, hst, prt, hs⟩ []) k) := by
  constructor
  · intro n var hmem
    simp only [Spidey.cgi_export_env]
    rw [Spidey.cgi_fold_lookup hs _ n var hmem,
      Spidey.cgi_base_env_no_http cfg _ n var hmem]
    cases hfind : List.find? (fun h => decide (h.name = n)) hs.reverse with
    | none =>
        have hnone : ∀ h ∈ hs, ¬(h.name = n) := by
          intro h hh
          have hx := List.find?_eq_none.mp hfind h (List.mem_reverse.mpr hh)
          simpa using hx
        constructor
        · intro hcontra; exact absurd hcontra Bool.false_ne_true
        · rintro ⟨h, hh, hn⟩; exact absurd hn (hnone h hh)
    | some g =>
        have hp := List.find?_some hfind
        have hg := List.mem_of_find?_eq_some hfind
        constructor
        · intro _; exact ⟨g, List.mem_reverse.mp hg, by simpa using hp⟩
        · intro _; rfl
  · intro k hk
    simp only [Spidey.cgi_export_env]
    exact Spidey.cgi_fold_other_keys hs _ k hk

/-- Claim C7 witness: on a request with one `Accept` header,
`HTTP_ACCEPT` is exported, and the non-allow-listed variable `HTTP_X`
is untouched by the header loop. -/
theorem c7_absent_allowlisted_header_not_exported_witness :
    (Spidey.getenvOf
        (Spidey.cgi_export_env ⟨Spidey.s2l "/srv/www", Spidey.s2l "9898"⟩
          ⟨Spidey.s2l "GET", Spidey.s2l "/a.cgi", Spidey.s2l "/srv/www/a.cgi", none,
           [], [], [⟨Spidey.s2l "Accept", Spidey.s2l "text/html"⟩]⟩ [])
        (Spidey.s2l "HTTP_ACCEPT")).isSome ∧
    Spidey.getenvOf
        (Spidey.cgi_export_env ⟨Spidey.s2l "/srv/www", Spidey.s2l "9898"⟩
          ⟨Spidey.s2l "GET", Spidey.s2l "/a.cgi", Spidey.s2l "/srv/www/a.cgi", none,
           [], [], [⟨Spidey.s2l "Accept", Spidey.s2l "text/html"⟩]⟩ [])
        (Spidey.s2l "HTTP_X")
      = Spidey.getenvOf
          (Spidey.cgi_base_env ⟨Spidey.s2l "/srv/www", Spidey.s2l "9898"⟩
            ⟨Spidey.s2l "GET", Spidey.s2l "/a.cgi", Spidey.s2l "/srv/www/a.cgi", none,
             [], [], [⟨Spidey.s2l "Accept", Spidey.s2l "text/html"⟩]⟩ [])
          (Spidey.s2l "HTTP_X") := by
  have h := c7_absent_allowlisted_header_not_exported
    ⟨Spidey.s2l "/srv/www", Spidey.s2l "9898"⟩ (Spidey.s2l "GET") (Spidey.s2l "/a.cgi")
    (Spidey.s2l "/srv/www/a.cgi") none [] []
    [⟨Spidey.s2l "Accept", Spidey.s2l "text/html"⟩]
  exact ⟨(h.1 (Spidey.s2l "Accept") (Spidey.s2l "HTTP_ACCEPT") (by decide)).mpr
      ⟨⟨Spidey.s2l "Accept", Spidey.s2l "text/html"⟩, by simp, rfl⟩,
    h.2 (Spidey.s2l "HTTP_X") (by decide)⟩

/-- Claim C10: within the allow list, each later header occurrence
overwrites the environment variable set by an earlier one
(`setenv(..., 1)` in arrival order), so the exported variable always
holds the value of the last header of that name — and is absent exactly
when no such header exists. -/
theorem c10_last_duplicate_header_wins (cfg : Spidey.CGIConfig)
    (m u p2 : List Char) (q : Option (List Char)) (hst prt : List Char)
    (hs : List Spidey.Header) (n var : List Char)
    (hmem : (n, var) ∈ Spidey.cgiHeaderAllowList) :
    Spidey.getenvOf (Spidey.cgi_export_env cfg ⟨m, u, p2, q, hst, prt, hs⟩ []) var
      = Spidey.lastHeaderValue hs n := by
  simp only [Spidey.cgi_export_env]
  rw [Spidey.cgi_fold_lookup hs _ n var hmem,
    Spidey.cgi_base_env_no_http cfg _ n var hmem]
  simp only [Spidey.lastHeaderValue]
  cases List.find? (fun h => decide (h.name = n)) hs.reverse with
  | none => rfl
  | some g => rfl

/-- Claim C10 witness: with two `Accept` headers (`text/html` then
`text/plain`), the exported `HTTP_ACCEPT` is the second value. -/
theorem c10_last_duplicate_header_wins_witness :
    Spidey.getenvOf
        (Spidey.cgi_export_env ⟨Spidey.s2l "/srv/www", Spidey.s2l "9898"⟩
          ⟨Spidey.s2l "GET", Spidey.s2l "/a.cgi", Spidey.s2l "/srv/www/a.cgi", none,
           [], [],
           [⟨Spidey.s2l "Accept", Spidey.s2l "text/html"⟩,
            ⟨Spidey.s2l "Accept", Spidey.s2l "text/plain"⟩]⟩ [])
        (Spidey.s2l "HTTP_ACCEPT")
      = some (Spidey.s2l "text/plain") :=
  (c10_last_duplicate_header_wins ⟨Spidey.s2l "/srv/www", Spidey.s2l "9898"⟩
    (Spidey.s2l "GET") (Spidey.s2l "/a.cgi") (Spidey.s2l "/srv/www/a.cgi") none [] []
    [⟨Spidey.s2l "Accept", Spidey.s2l "text/html"⟩,
     ⟨Spidey.s2l "Accept", Spidey.s2l "text/plain"⟩]
    (Spidey.s2l "Accept") (Spidey.s2l "HTTP_ACCEPT") (by decide)).trans (by decide)

/-- Claim C8 (code bug evidence): in the forking loop of src/forking.c a
`fork` failure executes `close(sfd); continue;`, so the listening socket
is closed; afterwards every iteration's `accept` fails and no connection
is ever served again — the loop keeps running but the server is no
longer able to accept and serve subsequent connections, contradicting
the claim that a spawn failure is retryable. -/
theorem c8_fork_failure_closes_listener :
    (Spidey.forking_iteration ⟨true⟩ true false).state.sfdOpen = false ∧
    (∀ c f : Bool,
      (Spidey.forking_iteration ⟨false⟩ c f).served = false ∧
      (Spidey.forking_iteration ⟨false⟩ c f).state = ⟨false⟩) := by
  refine ⟨rfl, ?_⟩; decide

/-- Claim C9 (code bug evidence): on the argument vector `spidey -x` the
`while` loop of `parse_options` (src/spidey.c) matches no flag branch,
never advances `argind`, and therefore never terminates — for every fuel
bound the loop is still running, so the usage text and the non-zero exit
promised by the claim never happen. -/
theorem c9_unknown_flag_never_terminates (fuel : Nat) (m : Option Spidey.SrvMode)
    (mt dmt p rp : List Char) :
    Spidey.parse_options_run [Spidey.s2l "spidey", Spidey.s2l "-x"] fuel
      ⟨1, m, mt, dmt, p, rp⟩ = none := by
  induction fuel with
  | zero => rfl
  | succ fuel ih =>
      have hstep : Spidey.parse_options_step [Spidey.s2l "spidey", Spidey.s2l "-x"]
          ⟨1, m, mt, dmt, p, rp⟩ = .next ⟨1, m, mt, dmt, p, rp⟩ := rfl
      rw [Spidey.parse_options_run, hstep]
      exact ih

end Spidey
